import Mathlib

/-!
Shallow embedding of the core pipeline of `src/lib.rs` (a command-line
arithmetic evaluator): tokenization (`parse_expression`), infix-to-postfix
conversion (`to_rpn`), and postfix evaluation (`evaluate_rpn` /
`apply_operator`), together with theorems settling the specification
claims about them.
-/

namespace Calc

/-- Exact rational numbers in canonical form (denominator positive,
numerator and denominator coprime when built with `Q.norm`), used as the
carrier of finite double values. A bespoke structure rather than
Mathlib's `ℚ` so that every arithmetic operation reduces inside the
kernel and concrete runs of the pipeline can be settled by `decide`. -/
structure Q where
  num : Int
  den : Nat
  deriving DecidableEq, Repr

/-- Canonicalise a numerator/denominator pair by dividing out the gcd. -/
def Q.norm (n : Int) (d : Nat) : Q :=
  let g := Nat.gcd n.natAbs d
  if g = 0 then ⟨0, 1⟩ else ⟨n / (g : Int), d / g⟩

/-- Build a canonical rational from an integer pair, fixing the sign of
the denominator (expected nonzero). -/
def Q.mkInt (n d : Int) : Q :=
  if d < 0 then Q.norm (-n) (-d).toNat else Q.norm n d.toNat

instance (n : Nat) : OfNat Q n := ⟨⟨n, 1⟩⟩

instance : Neg Q := ⟨fun a => ⟨-a.num, a.den⟩⟩

/-- Exact rational addition. -/
def Q.add (a b : Q) : Q :=
  Q.norm (a.num * b.den + b.num * a.den) (a.den * b.den)

/-- Exact rational multiplication. -/
def Q.mul (a b : Q) : Q := Q.norm (a.num * b.num) (a.den * b.den)

/-- Exact rational division (divisor expected nonzero). -/
def Q.div (a b : Q) : Q := Q.mkInt (a.num * b.den) (a.den * b.num)

/-- Semantic equality of rational values (cross multiplication). -/
def Q.beq (a b : Q) : Bool := a.num * b.den == b.num * a.den

/-- Model of an IEEE-754 binary64 value as used by the calculator.
Finite values are carried as exact rationals (rounding to the nearest
double is not modelled; every claim settled below involves only exactly
representable values). Negative zero is kept distinct from `finite 0`
(which plays the role of `+0.0`) because the source compares divisors
with `==`, under which `-0.0` and `0.0` are equal. -/
inductive F64 where
  | finite (q : Q)
  | negZero
  | inf
  | negInf
  | nan
  deriving DecidableEq, Repr

/-- IEEE-754 `==` on binary64 (Rust's `PartialEq` for `f64`): `NaN`
compares unequal to everything including itself, and `-0.0 == 0.0`. -/
def f64Eq : F64 → F64 → Bool
  | .nan, _ => false
  | _, .nan => false
  | .finite q, .finite r => q.beq r
  | .finite q, .negZero => q.num == 0
  | .negZero, .finite r => r.num == 0
  | .negZero, .negZero => true
  | .inf, .inf => true
  | .negInf, .negInf => true
  | _, _ => false

/-- The rational carried by a finite value (`-0.0` counts as `0`). -/
def qval : F64 → Option Q
  | .finite q => some q
  | .negZero => some 0
  | _ => none

/-- Whether the value is a zero (of either sign). -/
def isZero : F64 → Bool
  | .finite q => q.num == 0
  | .negZero => true
  | _ => false

/-- The IEEE sign bit (true = negative); `finite 0` is the positive zero. -/
def isNeg : F64 → Bool
  | .finite q => decide (q.num < 0)
  | .negZero => true
  | .negInf => true
  | _ => false

/-- IEEE-754 binary64 addition on the model (exact on finite values). -/
def f64Add : F64 → F64 → F64
  | .nan, _ => .nan
  | _, .nan => .nan
  | .inf, .negInf => .nan
  | .negInf, .inf => .nan
  | .inf, _ => .inf
  | _, .inf => .inf
  | .negInf, _ => .negInf
  | _, .negInf => .negInf
  | .negZero, .negZero => .negZero
  | .negZero, .finite r => .finite r
  | .finite q, .negZero => .finite q
  | .finite q, .finite r => .finite (q.add r)

/-- IEEE-754 binary64 negation on the model. -/
def f64Neg : F64 → F64
  | .finite q => if q.num = 0 then .negZero else .finite (-q)
  | .negZero => .finite 0
  | .inf => .negInf
  | .negInf => .inf
  | .nan => .nan

/-- IEEE-754 binary64 subtraction: `x - y = x + (-y)`. -/
def f64Sub (x y : F64) : F64 := f64Add x (f64Neg y)

/-- IEEE-754 binary64 multiplication on the model (exact on finite values). -/
def f64Mul (x y : F64) : F64 :=
  match x, y with
  | .nan, _ => .nan
  | _, .nan => .nan
  | _, _ =>
    let neg := isNeg x != isNeg y
    if x = .inf ∨ x = .negInf ∨ y = .inf ∨ y = .negInf then
      if isZero x ∨ isZero y then .nan
      else if neg then .negInf else .inf
    else
      match qval x, qval y with
      | some q, some r =>
        if (q.mul r).num = 0 then (if neg then .negZero else .finite 0)
        else .finite (q.mul r)
      | _, _ => .nan

/-- IEEE-754 binary64 division on the model (exact on finite values). -/
def f64Div (x y : F64) : F64 :=
  match x, y with
  | .nan, _ => .nan
  | _, .nan => .nan
  | _, _ =>
    let neg := isNeg x != isNeg y
    if x = .inf ∨ x = .negInf then
      if y = .inf ∨ y = .negInf then .nan
      else if neg then .negInf else .inf
    else if y = .inf ∨ y = .negInf then
      if neg then .negZero else .finite 0
    else
      match qval x, qval y with
      | some q, some r =>
        if r.num = 0 then
          if q.num = 0 then .nan
          else if neg then .negInf else .inf
        else if (q.div r).num = 0 then (if neg then .negZero else .finite 0)
        else .finite (q.div r)
      | _, _ => .nan

/-- Numeric value of a run of ASCII digits. -/
def digitsVal (ds : List Char) : Nat :=
  ds.foldl (fun n c => 10 * n + (c.toNat - 48)) 0

/-- Mantissa of the float grammar: `Digit+ | Digit+ '.' Digit* |
Digit* '.' Digit+`, returning its exact value and the unconsumed rest. -/
def parseMantissa (cs : List Char) : Option (Q × List Char) :=
  let ip := cs.takeWhile Char.isDigit
  let rest := cs.dropWhile Char.isDigit
  match rest with
  | '.' :: rest2 =>
    let fp := rest2.takeWhile Char.isDigit
    let rest3 := rest2.dropWhile Char.isDigit
    if ip.isEmpty && fp.isEmpty then none
    else some (Q.norm (digitsVal ip * 10 ^ fp.length + digitsVal fp) (10 ^ fp.length),
               rest3)
  | _ => if ip.isEmpty then none else some (⟨digitsVal ip, 1⟩, rest)

/-- Unsigned number with optional exponent (`e`/`E`, optional sign,
`Digit+`); the whole character list must be consumed. -/
def parseNumber (cs : List Char) : Option Q :=
  match parseMantissa cs with
  | none => none
  | some (m, rest) =>
    match rest with
    | [] => some m
    | c :: rest2 =>
      if c = 'e' ∨ c = 'E' then
        let sd : Bool × List Char :=
          match rest2 with
          | '+' :: r => (false, r)
          | '-' :: r => (true, r)
          | r => (false, r)
        if !sd.2.isEmpty && sd.2.all Char.isDigit then
          some (if sd.1 then m.div ⟨(10 : Int) ^ digitsVal sd.2, 1⟩
                else m.mul ⟨(10 : Int) ^ digitsVal sd.2, 1⟩)
        else none
      else none

/-- Model of Rust's `str::parse::<f64>()` (`f64::from_str`), following its
documented grammar: an optional sign, then `inf`/`infinity`/`nan`
(case-insensitive) or a decimal mantissa with optional exponent. Finite
results are exact rationals; rounding to the nearest double (and overflow
of huge literals to infinity) is not modelled — no claim depends on it. -/
def parseF64 (s : String) : Option F64 :=
  let sb : Bool × List Char :=
    match s.toList with
    | '+' :: r => (false, r)
    | '-' :: r => (true, r)
    | r => (false, r)
  let low := sb.2.map Char.toLower
  if low = ['i', 'n', 'f'] ∨ low = ['i', 'n', 'f', 'i', 'n', 'i', 't', 'y'] then
    some (if sb.1 then .negInf else .inf)
  else if low = ['n', 'a', 'n'] then some .nan
  else
    match parseNumber sb.2 with
    | none => none
    | some q =>
      if sb.1 then (if q.num = 0 then some .negZero else some (.finite (-q)))
      else some (.finite q)

/-- `Token` from src/lib.rs. -/
inductive Token where
  | number (value : F64)
  | operator (symbol : Char)
  deriving DecidableEq, Repr

/-- `Error` from src/lib.rs. -/
inductive Error where
  | invalidNumber (msg : String)
  | invalidOperator (msg : String)
  | invalidExpression (msg : String)
  | consecutiveOperators
  | divisionByZero
  | tooManyOperators
  | emptyExpression
  deriving DecidableEq, Repr

/-- The per-token loop of `parse_expression`: a token parsing as `f64`
becomes `Number`; else a single character among `+-*/` becomes
`Operator`; else the loop returns `InvalidExpression(token)` at once. -/
def parseTokensLoop : List String → Except Error (List Token)
  | [] => .ok []
  | token :: rest =>
    match parseF64 token with
    | some num =>
      match parseTokensLoop rest with
      | .ok ts => .ok (Token.number num :: ts)
      | .error e => .error e
    | none =>
      if token.length == 1 && "+-*/".toList.contains (token.toList.headD ' ') then
        match parseTokensLoop rest with
        | .ok ts => .ok (Token.operator (token.toList.headD ' ') :: ts)
        | .error e => .error e
      else .error (Error.invalidExpression token)

/-- `parse_expression` from src/lib.rs (the spec's `tokenize`): run the
per-token loop, then reject an empty token list with `EmptyExpression`. -/
def parse_expression (expression : List String) : Except Error (List Token) :=
  match parseTokensLoop expression with
  | .error e => .error e
  | .ok tokens =>
    if tokens.isEmpty then .error Error.emptyExpression else .ok tokens

/-- The body of the per-token loop of `parse_expression`, factored out for
stating theorems: the token a raw string is turned into, or `none` when
the loop would fail with `InvalidExpression`. -/
def classifyToken (token : String) : Option Token :=
  match parseF64 token with
  | some num => some (Token.number num)
  | none =>
    if token.length == 1 && "+-*/".toList.contains (token.toList.headD ' ') then
      some (Token.operator (token.toList.headD ' '))
    else none

/-- `precedence` from src/lib.rs. -/
def precedence (op : Char) : ℤ :=
  if op = '+' ∨ op = '-' then 1
  else if op = '*' ∨ op = '/' then 2
  else 0

/-- Result of running code that may `panic` in addition to returning
`Result`: the third constructor models Rust's panic, used only by the
unknown-operator arm of `apply_operator`. -/
inductive Outcome (α : Type) where
  | ok (v : α)
  | err (e : Error)
  | panic (msg : String)
  deriving DecidableEq, Repr

/-- `apply_operator` from src/lib.rs. Parameter order follows the source:
the first operand parameter is named `b` (the evaluator's first pop — the
later, right operand) and the second `a` (second pop — the earlier, left
operand); division checks `b == 0.0` before dividing. -/
def apply_operator (op : Char) (b a : F64) : Outcome F64 :=
  if op = '+' then .ok (f64Add a b)
  else if op = '-' then .ok (f64Sub a b)
  else if op = '*' then .ok (f64Mul a b)
  else if op = '/' then
    if f64Eq b (.finite 0) then .err Error.divisionByZero
    else .ok (f64Div a b)
  else .panic ("Unknown operator: " ++ String.mk [op])

/-- The `while let` loop inside `to_rpn`: pop stacked operators whose
precedence is ≥ the incoming operator's to the output. Returns the popped
operators (in pop order, as output tokens) and the remaining stack; the
stack holds its top at the head. -/
def popGE (op : Char) : List Char → List Token × List Char
  | [] => ([], [])
  | top :: rest =>
    if precedence top ≥ precedence op then
      let pr := popGE op rest
      (Token.operator top :: pr.1, pr.2)
    else ([], top :: rest)

/-- The main loop of `to_rpn`, returning the part of the output sequence
produced from this point on; the operator stack holds its top at the
head, and is flushed to the output in pop order at the end. -/
def to_rpnLoop : List Token → List Char → List Token
  | [], operators => operators.map Token.operator
  | Token.number n :: rest, operators => Token.number n :: to_rpnLoop rest operators
  | Token.operator op :: rest, operators =>
    let pr := popGE op operators
    pr.1 ++ to_rpnLoop rest (op :: pr.2)

/-- `to_rpn` from src/lib.rs. -/
def to_rpn (tokens : List Token) : Except Error (List Token) :=
  .ok (to_rpnLoop tokens [])

/-- The main loop of `evaluate_rpn`; the operand stack holds its top at
the head. On an operator, `a` is the first pop and `b` the second, and the
source calls `apply_operator(op, a, b)`. At the end, exactly one value
must remain. -/
def evaluate_rpnLoop : List Token → List F64 → Outcome F64
  | [], stack =>
    match stack with
    | [v] => .ok v
    | _ => .err Error.tooManyOperators
  | Token.number num :: rest, stack => evaluate_rpnLoop rest (num :: stack)
  | Token.operator op :: rest, stack =>
    match stack with
    | a :: b :: st =>
      match apply_operator op a b with
      | .ok result => evaluate_rpnLoop rest (result :: st)
      | .err e => .err e
      | .panic m => .panic m
    | _ => .err (Error.invalidExpression "Not enough operands for operator")

/-- `evaluate_rpn` from src/lib.rs. -/
def evaluate_rpn (tokens : List Token) : Outcome F64 :=
  evaluate_rpnLoop tokens []

/-- `evaluate_expression` from src/lib.rs (the spec's `evaluate`):
convert to postfix, then evaluate, propagating errors. -/
def evaluate_expression (expression : List Token) : Outcome F64 :=
  match to_rpn expression with
  | .ok rpn => evaluate_rpn rpn
  | .error e => .err e

/-- The composition the interactive shell performs (src/main.rs):
`parse_expression` then `evaluate_expression`, propagating tokenizer
errors. -/
def run (raw : List String) : Outcome F64 :=
  match parse_expression raw with
  | .ok tokens => evaluate_expression tokens
  | .error e => .err e

/-- The four error kinds the specification's taxonomy says the pipeline
can actually produce (the remaining variants of `Error` are declared but
unused by the reference pipeline). -/
def definedError : Error → Prop
  | .invalidExpression _ => True
  | .emptyExpression => True
  | .divisionByZero => True
  | .tooManyOperators => True
  | _ => False

/-- All operator tokens in the list carry one of the four recognised
operator characters. -/
def opsValid (ts : List Token) : Prop :=
  ∀ c : Char, Token.operator c ∈ ts → c ∈ "+-*/".toList

/-- One step of the loop of `parse_expression`, phrased through the
factored-out loop body `classifyToken`. -/
theorem parseTokensLoop_cons (t : String) (rest : List String) :
    parseTokensLoop (t :: rest) =
      match classifyToken t with
      | none => .error (Error.invalidExpression t)
      | some tok =>
        match parseTokensLoop rest with
        | .ok ts => .ok (tok :: ts)
        | .error e => .error e := by
  simp only [parseTokensLoop, classifyToken]
  cases hp : parseF64 t with
  | some num => rfl
  | none =>
    by_cases hc : (t.length == 1 &&
        "+-*/".toList.contains (t.toList.headD ' ')) = true
    · rw [if_pos hc, if_pos hc]
    · rw [if_neg hc, if_neg hc]

/-- The loop of `parse_expression` classifies each raw token in order:
on success the produced tokens are exactly the classifications of the
raw tokens. -/
theorem parseTokensLoop_ok_map :
    ∀ (raw : List String) (ts : List Token), parseTokensLoop raw = .ok ts →
      raw.map classifyToken = ts.map some := by
  intro raw
  induction raw with
  | nil =>
    intro ts h
    simp only [parseTokensLoop] at h
    injection h with h'
    subst h'
    rfl
  | cons t rest ih =>
    intro ts h
    rw [parseTokensLoop_cons] at h
    cases hcl : classifyToken t with
    | none => rw [hcl] at h; exact Except.noConfusion h
    | some tok =>
      rw [hcl] at h
      cases hr : parseTokensLoop rest with
      | ok ts' =>
        rw [hr] at h
        injection h with h'
        subst h'
        rw [List.map_cons, List.map_cons, hcl, ih ts' hr]
      | error e => rw [hr] at h; exact Except.noConfusion h

/-- The loop of `parse_expression` fails only with `InvalidExpression`. -/
theorem parseTokensLoop_error :
    ∀ (raw : List String) (e : Error), parseTokensLoop raw = .error e →
      ∃ s, e = Error.invalidExpression s := by
  intro raw
  induction raw with
  | nil => intro e h; simp only [parseTokensLoop] at h; exact Except.noConfusion h
  | cons t rest ih =>
    intro e h
    rw [parseTokensLoop_cons] at h
    cases hcl : classifyToken t with
    | none =>
      rw [hcl] at h
      injection h with h'
      exact ⟨t, h'.symm⟩
    | some tok =>
      rw [hcl] at h
      cases hr : parseTokensLoop rest with
      | ok ts' => rw [hr] at h; exact Except.noConfusion h
      | error e' =>
        rw [hr] at h
        injection h with h'
        subst h'
        exact ih e' hr

/-- When every raw token before `t` classifies and `t` does not, the loop
of `parse_expression` fails with `InvalidExpression t`. -/
theorem parseTokensLoop_append_error :
    ∀ (pre : List String) (t : String) (post : List String),
      (∀ s ∈ pre, (classifyToken s).isSome = true) → classifyToken t = none →
      parseTokensLoop (pre ++ t :: post) = .error (.invalidExpression t) := by
  intro pre
  induction pre with
  | nil =>
    intro t post _ ht
    rw [List.nil_append, parseTokensLoop_cons, ht]
  | cons s pre' ih =>
    intro t post hpre ht
    have hs : (classifyToken s).isSome = true := hpre s (by simp)
    have hrec := ih t post (fun x hx => hpre x (by simp [hx])) ht
    rw [List.cons_append, parseTokensLoop_cons, hrec]
    cases hcl : classifyToken s with
    | none => rw [hcl] at hs; exact Bool.noConfusion hs
    | some tok => rfl

/-- On success `parse_expression` returns exactly the loop's tokens. -/
theorem parse_expression_ok_loop (raw : List String) (ts : List Token)
    (h : parse_expression raw = .ok ts) : parseTokensLoop raw = .ok ts := by
  unfold parse_expression at h
  revert h
  cases hr : parseTokensLoop raw with
  | error e => intro h; exact Except.noConfusion h
  | ok ts' =>
    intro h
    cases ts' with
    | nil =>
      exact Except.noConfusion
        (show (Except.error Error.emptyExpression : Except Error (List Token))
            = Except.ok ts from h)
    | cons a ts'' =>
      have h' : (Except.ok (a :: ts'') : Except Error (List Token))
          = Except.ok ts := h
      exact h'

/-- A raw token classified as an operator carries one of `+-*/`. -/
theorem classifyToken_operator (s : String) (c : Char)
    (h : classifyToken s = some (Token.operator c)) : c ∈ "+-*/".toList := by
  unfold classifyToken at h
  cases hp : parseF64 s with
  | some num =>
    rw [hp] at h
    injection h with h'
    exact Token.noConfusion h'
  | none =>
    rw [hp] at h
    by_cases hc : (s.length == 1 &&
        "+-*/".toList.contains (s.toList.headD ' ')) = true
    · rw [if_pos hc] at h
      injection h with h'
      injection h' with h''
      subst h''
      have hc2 := (Bool.and_eq_true _ _).mp hc
      simpa using hc2.2
    · rw [if_neg hc] at h
      exact Option.noConfusion h

/-- Tokens produced by `parse_expression` only carry recognised
operator characters. -/
theorem parse_expression_opsValid (raw : List String) (ts : List Token)
    (h : parse_expression raw = .ok ts) : opsValid ts := by
  have hm := parseTokensLoop_ok_map raw ts (parse_expression_ok_loop raw ts h)
  unfold opsValid
  intro c hmem
  have hsome : some (Token.operator c) ∈ ts.map some :=
    List.mem_map_of_mem some hmem
  rw [← hm] at hsome
  rcases List.mem_map.mp hsome with ⟨s, _, hcl⟩
  exact classifyToken_operator s c hcl

/-- `parse_expression` fails only with the defined error kinds. -/
theorem parse_expression_error (raw : List String) (e : Error)
    (h : parse_expression raw = .error e) : definedError e := by
  unfold parse_expression at h
  revert h
  cases hr : parseTokensLoop raw with
  | error e' =>
    intro h
    have h' : (Except.error e' : Except Error (List Token)) = .error e := h
    injection h' with h''
    obtain ⟨s, hs⟩ := parseTokensLoop_error raw e' hr
    rw [← h'', hs]
    trivial
  | ok ts =>
    intro h
    cases ts with
    | nil =>
      have h' : (Except.error Error.emptyExpression
          : Except Error (List Token)) = .error e := h
      injection h' with h''
      rw [← h'']
      trivial
    | cons a ts' =>
      exact Except.noConfusion
        (show (Except.ok (a :: ts') : Except Error (List Token))
            = .error e from h)

/-- Operators popped by the `while let` loop, and those left on its
stack, all come from the incoming stack. -/
theorem popGE_mem (op : Char) :
    ∀ (ops : List Char) (c : Char),
      (Token.operator c ∈ (popGE op ops).1 → c ∈ ops) ∧
      (c ∈ (popGE op ops).2 → c ∈ ops) := by
  intro ops
  induction ops with
  | nil => intro c; constructor <;> intro hm <;> simp [popGE] at hm
  | cons top rest ih =>
    intro c
    simp only [popGE]
    by_cases hc : precedence top ≥ precedence op
    · rw [if_pos hc]
      constructor
      · intro hm
        rcases List.mem_cons.mp hm with h1 | h2
        · injection h1 with h1'
          exact h1' ▸ List.mem_cons_self top rest
        · exact List.mem_cons_of_mem _ ((ih c).1 h2)
      · intro hm
        exact List.mem_cons_of_mem _ ((ih c).2 hm)
    · rw [if_neg hc]
      constructor
      · intro hm
        exact absurd hm (List.not_mem_nil _)
      · intro hm
        exact hm

/-- The shunting-yard loop preserves validity of operator characters. -/
theorem to_rpnLoop_opsValid :
    ∀ (ts : List Token) (ops : List Char),
      opsValid ts → (∀ c ∈ ops, c ∈ "+-*/".toList) →
      opsValid (to_rpnLoop ts ops) := by
  intro ts
  induction ts with
  | nil =>
    intro ops _ hops
    unfold opsValid
    intro c hmem
    simp only [to_rpnLoop] at hmem
    rcases List.mem_map.mp hmem with ⟨c', hc', heq⟩
    injection heq with h'
    exact h' ▸ hops c' hc'
  | cons t rest ih =>
    intro ops hvalid hops
    cases t with
    | number n =>
      unfold opsValid
      intro c hmem
      simp only [to_rpnLoop] at hmem
      rcases List.mem_cons.mp hmem with h1 | h2
      · exact Token.noConfusion h1
      · exact ih ops (fun c' hm => hvalid c' (List.mem_cons_of_mem _ hm)) hops c h2
    | operator op =>
      unfold opsValid
      intro c hmem
      simp only [to_rpnLoop] at hmem
      have hop : op ∈ "+-*/".toList := hvalid op (List.mem_cons_self _ _)
      rcases List.mem_append.mp hmem with h1 | h2
      · exact hops c ((popGE_mem op ops c).1 h1)
      · refine ih (op :: (popGE op ops).2)
          (fun c' hm => hvalid c' (List.mem_cons_of_mem _ hm)) ?_ c h2
        intro c' hm
        rcases List.mem_cons.mp hm with h3 | h4
        · exact h3 ▸ hop
        · exact hops c' ((popGE_mem op ops c').2 h4)

/-- A recognised operator character never reaches the `panic` arm of
`apply_operator`: the result is `Ok`, or `DivisionByZero` for `/`. -/
theorem apply_operator_no_panic (c : Char) (hc : c ∈ "+-*/".toList)
    (b a : F64) :
    (∃ v, apply_operator c b a = .ok v) ∨
    apply_operator c b a = .err Error.divisionByZero := by
  have hc' : c = '+' ∨ c = '-' ∨ c = '*' ∨ c = '/' := by simpa using hc
  rcases hc' with rfl | rfl | rfl | rfl
  · exact Or.inl ⟨f64Add a b, rfl⟩
  · exact Or.inl ⟨f64Sub a b, rfl⟩
  · exact Or.inl ⟨f64Mul a b, rfl⟩
  · by_cases hb : f64Eq b (.finite 0) = true
    · right
      simp [apply_operator, hb]
    · exact Or.inl ⟨f64Div a b, by simp [apply_operator, hb]⟩

/-- One operator step of the evaluator on a stack of depth ≥ 2. -/
theorem evaluate_rpnLoop_op_step (op : Char) (rest : List Token)
    (a b : F64) (st : List F64) :
    evaluate_rpnLoop (Token.operator op :: rest) (a :: b :: st)
      = match apply_operator op a b with
        | .ok result => evaluate_rpnLoop rest (result :: st)
        | .err e => .err e
        | .panic m => .panic m := rfl

/-- With recognised operator characters only, the evaluator loop always
returns `Ok` or one of the defined errors — never a panic. -/
theorem evaluate_rpnLoop_total :
    ∀ (ts : List Token) (st : List F64), opsValid ts →
      (∃ v, evaluate_rpnLoop ts st = .ok v) ∨
      (∃ e, evaluate_rpnLoop ts st = .err e ∧ definedError e) := by
  intro ts
  induction ts with
  | nil =>
    intro st _
    match st with
    | [v] => exact Or.inl ⟨v, rfl⟩
    | [] => exact Or.inr ⟨Error.tooManyOperators, rfl, trivial⟩
    | a :: b :: rest => exact Or.inr ⟨Error.tooManyOperators, rfl, trivial⟩
  | cons t rest ih =>
    intro st hvalid
    have htail : opsValid rest :=
      fun c hm => hvalid c (List.mem_cons_of_mem _ hm)
    cases t with
    | number n => exact ih (n :: st) htail
    | operator op =>
      match st with
      | [] =>
        exact Or.inr
          ⟨Error.invalidExpression "Not enough operands for operator",
           rfl, trivial⟩
      | [a] =>
        exact Or.inr
          ⟨Error.invalidExpression "Not enough operands for operator",
           rfl, trivial⟩
      | a :: b :: st' =>
        have hop : op ∈ "+-*/".toList := hvalid op (List.mem_cons_self _ _)
        rcases apply_operator_no_panic op hop a b with ⟨v, hv⟩ | hv
        · rw [evaluate_rpnLoop_op_step, hv]
          exact ih (v :: st') htail
        · rw [evaluate_rpnLoop_op_step, hv]
          exact Or.inr ⟨Error.divisionByZero, rfl, trivial⟩

/-- C4: for every raw input, tokenizing then evaluating terminates with
either a value or one of the four defined errors; the unknown-operator
panic arm is unreachable for token sequences produced by
`parse_expression`, whatever the operator arity mismatch. -/
theorem C4_no_panic (raw : List String) :
    ((∃ v, run raw = .ok v) ∨ (∃ e, run raw = .err e ∧ definedError e)) ∧
    ∀ m : String, run raw ≠ .panic m := by
  have main : (∃ v, run raw = .ok v) ∨
      (∃ e, run raw = .err e ∧ definedError e) := by
    unfold run
    revert raw
    intro raw
    cases hp : parse_expression raw with
    | error e =>
      exact Or.inr ⟨e, rfl, parse_expression_error raw e hp⟩
    | ok tokens =>
      have hvalid : opsValid tokens := parse_expression_opsValid raw tokens hp
      have hvalid' : opsValid (to_rpnLoop tokens []) :=
        to_rpnLoop_opsValid tokens [] hvalid (by simp)
      exact evaluate_rpnLoop_total (to_rpnLoop tokens []) [] hvalid'
  refine ⟨main, fun m hm => ?_⟩
  rcases main with ⟨v, hv⟩ | ⟨e, he, _⟩
  · rw [hv] at hm
    exact Outcome.noConfusion hm
  · rw [he] at hm
    exact Outcome.noConfusion hm

/-- C1: on an operator step the evaluator pops exactly two operands and
applies the operator with the second-popped (deeper, earlier-pushed)
operand on the left; hence the postfix sequence
`[Number x, Number y, Operator op]` evaluates to `x op y` — in
particular `x - y` for `-`, and `x / y` for `/` when the divisor is
nonzero. -/
theorem C1_pop_order (x y : F64) (ts : List Token) (st : List F64) :
    evaluate_rpnLoop (Token.operator '-' :: ts) (y :: x :: st)
      = evaluate_rpnLoop ts (f64Sub x y :: st) ∧
    evaluate_rpn [Token.number x, Token.number y, Token.operator '+']
      = .ok (f64Add x y) ∧
    evaluate_rpn [Token.number x, Token.number y, Token.operator '-']
      = .ok (f64Sub x y) ∧
    evaluate_rpn [Token.number x, Token.number y, Token.operator '*']
      = .ok (f64Mul x y) ∧
    (f64Eq y (.finite 0) = false →
      evaluate_rpnLoop (Token.operator '/' :: ts) (y :: x :: st)
        = evaluate_rpnLoop ts (f64Div x y :: st) ∧
      evaluate_rpn [Token.number x, Token.number y, Token.operator '/']
        = .ok (f64Div x y)) := by
  refine ⟨rfl, rfl, rfl, rfl, fun hy => ⟨?_, ?_⟩⟩
  · simp [evaluate_rpnLoop, apply_operator, hy]
  · simp [evaluate_rpn, evaluate_rpnLoop, apply_operator, hy]

/-- C1 witness: concrete instance `10 4 -` and `10 4 /`. -/
theorem C1_pop_order_witness :
    evaluate_rpn [Token.number (.finite 10), Token.number (.finite 4),
        Token.operator '-'] = .ok (f64Sub (.finite 10) (.finite 4)) ∧
    evaluate_rpn [Token.number (.finite 10), Token.number (.finite 4),
        Token.operator '/'] = .ok (f64Div (.finite 10) (.finite 4)) :=
  ⟨(C1_pop_order (.finite 10) (.finite 4) [] []).2.2.1,
   ((C1_pop_order (.finite 10) (.finite 4) [] []).2.2.2.2 (by decide)).2⟩

/-- C2: a stacked operator of precedence ≥ the incoming operator's is
popped to the output, so a chain of two same-precedence operators
converts left-associatively (`a o1 b o2 c` becomes `a b o1 c o2`), and
`10 - 3 - 2` evaluates to `5` = `(10-3)-2`. -/
theorem C2_left_assoc (a b c : F64) (o1 o2 : Char)
    (h : precedence o1 ≥ precedence o2) :
    to_rpn [Token.number a, Token.operator o1, Token.number b,
        Token.operator o2, Token.number c]
      = .ok [Token.number a, Token.number b, Token.operator o1,
          Token.number c, Token.operator o2] ∧
    run ["10", "-", "3", "-", "2"] = .ok (.finite 5) := by
  refine ⟨?_, by decide⟩
  simp [to_rpn, to_rpnLoop, popGE, h]

/-- C2 witness: the chain `10 - 3 - 2` itself, with `o1 = o2 = '-'`. -/
theorem C2_left_assoc_witness :
    to_rpn [Token.number (.finite 10), Token.operator '-',
        Token.number (.finite 3), Token.operator '-',
        Token.number (.finite 2)]
      = .ok [Token.number (.finite 10), Token.number (.finite 3),
          Token.operator '-', Token.number (.finite 2),
          Token.operator '-'] ∧
    run ["10", "-", "3", "-", "2"] = .ok (.finite 5) :=
  C2_left_assoc (.finite 10) (.finite 3) (.finite 2) '-' '-' (by decide)

/-- C3: `apply_operator` fails with `DivisionByZero` exactly when the
operator is `/` and the divisor `b` (the evaluator's first pop) compares
`==` to `0.0` — the guard sits before the division, which is only
reached on a nonzero divisor; `+`, `-`, `*` always return `Ok`; and
`10 / 0` fails with `DivisionByZero`. -/
theorem C3_division_by_zero (a b : F64) :
    apply_operator '+' b a = .ok (f64Add a b) ∧
    apply_operator '-' b a = .ok (f64Sub a b) ∧
    apply_operator '*' b a = .ok (f64Mul a b) ∧
    (apply_operator '/' b a = .err Error.divisionByZero ↔
      f64Eq b (.finite 0) = true) ∧
    (f64Eq b (.finite 0) = false →
      apply_operator '/' b a = .ok (f64Div a b)) ∧
    run ["10", "/", "0"] = .err Error.divisionByZero := by
  refine ⟨rfl, rfl, rfl, ⟨fun h => ?_, fun hb => by simp [apply_operator, hb]⟩,
    fun hb => by simp [apply_operator, hb], by decide⟩
  by_cases hb : f64Eq b (.finite 0) = true
  · exact hb
  · simp [apply_operator, hb] at h

/-- C3 witness: divisors `0` and `2` at dividend `10`. -/
theorem C3_division_by_zero_witness :
    (apply_operator '/' (.finite 0) (.finite 10) = .err Error.divisionByZero) ∧
    apply_operator '/' (.finite 2) (.finite 10)
      = .ok (f64Div (.finite 10) (.finite 2)) :=
  ⟨((C3_division_by_zero (.finite 10) (.finite 0)).2.2.2.1).mpr (by decide),
   (C3_division_by_zero (.finite 10) (.finite 2)).2.2.2.2.1 (by decide)⟩

/-- C5: `parse_expression` maps each raw token that parses as a float to
`Number` and each single-character token among `+-*/` to `Operator`
(`classifyToken` is exactly this case split), fails with
`InvalidExpression` carrying the leftmost token matching neither, and
returns no tokens on failure; `tokenize ["3","+","five"]` fails with
`InvalidExpression "five"`. -/
theorem C5_tokenize_classification (pre post : List String) (t : String)
    (hpre : ∀ s ∈ pre, (classifyToken s).isSome = true)
    (ht : classifyToken t = none) :
    (∀ (raw : List String) (ts : List Token), parse_expression raw = .ok ts →
        raw.map classifyToken = ts.map some) ∧
    parse_expression (pre ++ t :: post) = .error (.invalidExpression t) ∧
    parse_expression ["3", "+", "five"] = .error (.invalidExpression "five") := by
  refine ⟨fun raw ts h => parseTokensLoop_ok_map raw ts
    (parse_expression_ok_loop raw ts h), ?_, by rfl⟩
  unfold parse_expression
  rw [parseTokensLoop_append_error pre t post hpre ht]

/-- C5 witness: the offending token `"five"` after valid `"3"`, `"+"`. -/
theorem C5_tokenize_classification_witness :
    parse_expression (["3", "+"] ++ "five" :: [])
      = .error (.invalidExpression "five") :=
  (C5_tokenize_classification ["3", "+"] [] "five" (by decide) (by decide)).2.1

/-- C6: an operator hit with fewer than two stacked values fails with
`InvalidExpression` about insufficient operands; once the tokens are
exhausted, a single remaining value is returned, and any other count
fails with `TooManyOperators`. -/
theorem C6_arity_and_final (op : Char) (ts : List Token) (st : List F64)
    (h : st.length < 2) :
    evaluate_rpnLoop (Token.operator op :: ts) st
      = .err (Error.invalidExpression "Not enough operands for operator") ∧
    (∀ v : F64, evaluate_rpnLoop [] [v] = .ok v) ∧
    (∀ stack : List F64, stack.length ≠ 1 →
      evaluate_rpnLoop [] stack = .err Error.tooManyOperators) := by
  refine ⟨?_, fun v => rfl, ?_⟩
  · match st with
    | [] => rfl
    | [a] => rfl
    | a :: b :: rest =>
      exact absurd h (by simp only [List.length_cons]; omega)
  · intro stack hs
    match stack with
    | [] => rfl
    | [v] => exact absurd rfl hs
    | a :: b :: rest => rfl

/-- C6 witness: one stacked value then `+`; final stacks of size 1, 0. -/
theorem C6_arity_and_final_witness :
    evaluate_rpnLoop [Token.operator '+'] [F64.finite 3]
      = .err (Error.invalidExpression "Not enough operands for operator") ∧
    evaluate_rpnLoop [] [F64.finite 3] = .ok (F64.finite 3) ∧
    evaluate_rpnLoop [] ([] : List F64) = .err Error.tooManyOperators :=
  ⟨(C6_arity_and_final '+' [] [F64.finite 3] (by decide)).1,
   (C6_arity_and_final '+' [] [F64.finite 3] (by decide)).2.1 (F64.finite 3),
   (C6_arity_and_final '+' [] [F64.finite 3] (by decide)).2.2 [] (by decide)⟩

/-- C7: the precedence table maps `+`,`-` to 1, `*`,`/` to 2, anything
else to 0, and `2 * 3 + 4` evaluates to `10`. -/
theorem C7_precedence (c : Char)
    (h1 : c ≠ '+') (h2 : c ≠ '-') (h3 : c ≠ '*') (h4 : c ≠ '/') :
    precedence '+' = 1 ∧ precedence '-' = 1 ∧ precedence '*' = 2 ∧
    precedence '/' = 2 ∧ precedence c = 0 ∧
    run ["2", "*", "3", "+", "4"] = .ok (.finite 10) := by
  refine ⟨rfl, rfl, rfl, rfl, ?_, by decide⟩
  simp [precedence, h1, h2, h3, h4]

/-- C7 witness: the unrecognised character `%`. -/
theorem C7_precedence_witness :
    precedence '+' = 1 ∧ precedence '-' = 1 ∧ precedence '*' = 2 ∧
    precedence '/' = 2 ∧ precedence '%' = 0 ∧
    run ["2", "*", "3", "+", "4"] = .ok (.finite 10) :=
  C7_precedence '%' (by decide) (by decide) (by decide) (by decide)

/-- C8: the empty raw input fails with `EmptyExpression`, and (the
emptiness test running after the per-token loop) an empty input is the
only input yielding `EmptyExpression`. -/
theorem C8_empty (raw : List String)
    (h : parse_expression raw = .error Error.emptyExpression) :
    parse_expression [] = .error Error.emptyExpression ∧ raw = [] := by
  refine ⟨by rfl, ?_⟩
  match raw with
  | [] => rfl
  | t :: rest =>
    exfalso
    unfold parse_expression at h
    revert h
    cases hr : parseTokensLoop (t :: rest) with
    | ok ts =>
      intro h
      have hm := parseTokensLoop_ok_map (t :: rest) ts hr
      cases ts with
      | nil => simp at hm
      | cons a ts' =>
        exact Except.noConfusion
          (show (Except.ok (a :: ts') : Except Error (List Token))
              = Except.error Error.emptyExpression from h)
    | error e =>
      intro h
      obtain ⟨s, hs⟩ := parseTokensLoop_error (t :: rest) e hr
      have h' : (Except.error e : Except Error (List Token))
          = Except.error Error.emptyExpression := h
      injection h' with h''
      rw [h''] at hs
      exact Error.noConfusion hs

/-- C8 witness: the empty input itself. -/
theorem C8_empty_witness :
    parse_expression [] = .error Error.emptyExpression ∧
    ([] : List String) = [] :=
  C8_empty [] (by rfl)

/-- C9: every raw token accepted by 64-bit float parsing becomes a
`Number` token, including signed literals (`-5`), exponent forms
(`1e3`), and the special values `inf` and `NaN`. -/
theorem C9_float_grammar (s : String) (v : F64) (h : parseF64 s = some v) :
    parse_expression [s] = .ok [Token.number v] ∧
    parseF64 "-5" = some (.finite (-5)) ∧
    parseF64 "1e3" = some (.finite 1000) ∧
    parseF64 "inf" = some F64.inf ∧
    parseF64 "NaN" = some F64.nan ∧
    parse_expression ["-5"] = .ok [Token.number (.finite (-5))] ∧
    parse_expression ["1e3"] = .ok [Token.number (.finite 1000)] ∧
    parse_expression ["inf"] = .ok [Token.number F64.inf] ∧
    parse_expression ["NaN"] = .ok [Token.number F64.nan] := by
  refine ⟨?_, by decide, by decide, by decide, by decide, by rfl,
    by rfl, by rfl, by rfl⟩
  rw [parse_expression, parseTokensLoop_cons, classifyToken, h]
  rfl

/-- C9 witness: the token `inf`. -/
theorem C9_float_grammar_witness :
    parse_expression ["inf"] = .ok [Token.number F64.inf] :=
  (C9_float_grammar "inf" F64.inf (by decide)).1

/-- C10: `-0` parses to the negative zero, which the division guard's
`==` identifies with `0.0`, so dividing by `-0` also fails with
`DivisionByZero`. -/
theorem C10_negative_zero :
    parseF64 "-0" = some F64.negZero ∧
    f64Eq F64.negZero (.finite 0) = true ∧
    (∀ a : F64, apply_operator '/' F64.negZero a = .err Error.divisionByZero) ∧
    run ["10", "/", "-0"] = .err Error.divisionByZero := by
  exact ⟨by decide, by decide, fun a => rfl, by decide⟩


end Calc
